import Mathlib

/-!
Verification of the 1D diffusion model (diffusion.py).

Floating-point values are modelled by exact rationals (ℚ); numpy arrays of
floats by `List ℚ`.  Each definition is a direct translation of the
corresponding Python function in `src/diffusion.py`.
-/

/-- Translation of `calculate_time_step(grid_spacing, diffusivity)`:
`return 0.5 * grid_spacing**2 / diffusivity`. -/
def calculate_time_step (grid_spacing diffusivity : ℚ) : ℚ :=
  1/2 * grid_spacing ^ 2 / diffusivity

/-- Translation of `set_initial_profile(grid_size, boundary_left, boundary_right)`:
`profile[: grid_size//2] = boundary_left; profile[grid_size//2 :] = boundary_right`.
Element `i` holds `boundary_left` when `i < grid_size / 2` (Nat division, as
Python `//`), else `boundary_right`. -/
def set_initial_profile (grid_size : ℕ) (boundary_left boundary_right : ℚ) : List ℚ :=
  (List.range grid_size).map (fun i => if i < grid_size / 2 then boundary_left else boundary_right)

/-- Model of `np.arange(start, stop, step)` for `step ≠ 0`: the sequence
`start + i*step` for `0 ≤ i < ⌈(stop - start)/step⌉` (empty when that
ceiling is not positive).  This is the documented numpy length formula. -/
def arange (start stop step : ℚ) : List ℚ :=
  (List.range (⌈(stop - start) / step⌉).toNat).map
    (fun (i : ℕ) => start + ((i : ℕ) : ℚ) * step)

/-- Translation of `make_grid(origin, domain_size, grid_spacing)`:
`grid = np.arange(origin, origin+domain_size, grid_spacing); return (grid, len(grid))`. -/
def make_grid (origin domain_size grid_spacing : ℚ) : List ℚ × ℕ :=
  let grid := arange origin (origin + domain_size) grid_spacing
  (grid, grid.length)

/-- Model of `np.roll(C, shift)`: output index `i` holds input index
`(i - shift) mod n`. -/
def npRoll (C : List ℚ) (shift : ℤ) : List ℚ :=
  (List.range C.length).map (fun (i : ℕ) =>
    C.getD ((((i : ℕ) : ℤ) - shift) % ((C.length : ℕ) : ℤ)).toNat 0)

/-- The full centered difference of `solve_1d_diffusion`:
`np.roll(concentration, -1) - 2*concentration + np.roll(concentration, 1)`,
computed at every index, wrap-around neighbors included. -/
def centered_difference (C : List ℚ) : List ℚ :=
  (List.range C.length).map (fun i =>
    (npRoll C (-1)).getD i 0 - 2 * C.getD i 0 + (npRoll C 1).getD i 0)

/-- Translation of `solve_1d_diffusion(concentration, grid_spacing, time_step, diffusivity)`:
the centered difference is taken from the single pre-call snapshot of the
field, then `concentration[1:-1] += diffusivity * time_step / grid_spacing**2
* centered_difference[1:-1]`; all other indices keep their old value. -/
def solve_1d_diffusion (concentration : List ℚ)
    (grid_spacing time_step diffusivity : ℚ) : List ℚ :=
  let cd := centered_difference concentration
  (List.range concentration.length).map (fun i =>
    if 1 ≤ i ∧ i + 1 < concentration.length then
      concentration.getD i 0 + diffusivity * time_step / grid_spacing ^ 2 * cd.getD i 0
    else
      concentration.getD i 0)

/-- The fixed internal parameters of `diffusion_model` and its initial field:
`D = 100; dx = 0.5; C_left = 500; C_right = 0;
x, nx = make_grid(0, Lx, dx); C = set_initial_profile(nx, C_left, C_right)`. -/
def diffusion_model_init (domain_size : ℚ) : List ℚ :=
  set_initial_profile (make_grid 0 domain_size (1/2)).2 500 0

/-- One iteration of the `diffusion_model` time loop:
`solve_1d_diffusion(C, dx, dt, D)` with `dx = 0.5`, `D = 100`,
`dt = calculate_time_step(dx, D)`. -/
def diffusion_model_step (C : List ℚ) : List ℚ :=
  solve_1d_diffusion C (1/2) (calculate_time_step (1/2) 100) 100

/-- The concentration field of `diffusion_model(domain_size = ...)` after `k`
iterations of the time loop (`k = 0` is the initial field). -/
def diffusion_model_state (domain_size : ℚ) (k : ℕ) : List ℚ :=
  diffusion_model_step^[k] (diffusion_model_init domain_size)

/-- Variant stepper following the spec note: skip boundary indices entirely
in the update and use only true in-range neighbors for the interior
centered difference. -/
def solve_1d_diffusion_skip (concentration : List ℚ)
    (grid_spacing time_step diffusivity : ℚ) : List ℚ :=
  (List.range concentration.length).map (fun i =>
    if 1 ≤ i ∧ i + 1 < concentration.length then
      concentration.getD i 0 + diffusivity * time_step / grid_spacing ^ 2 *
        (concentration.getD (i + 1) 0 - 2 * concentration.getD i 0 +
          concentration.getD (i - 1) 0)
    else
      concentration.getD i 0)

/-! ### Helper lemmas -/

theorem getD_range_map (n : ℕ) (f : ℕ → ℚ) (i : ℕ) (d : ℚ) :
    ((List.range n).map f).getD i d = if i < n then f i else d := by
  rcases Nat.lt_or_ge i n with h | h
  · rw [List.getD_eq_getElem]
    · simp [h]
    · simpa using h
  · rw [List.getD_eq_default]
    · simp [Nat.not_lt_of_le h]
    · simpa using h

theorem length_solve (C : List ℚ) (dx dt D : ℚ) :
    (solve_1d_diffusion C dx dt D).length = C.length := by
  simp [solve_1d_diffusion]

theorem npRoll_length (C : List ℚ) (k : ℤ) : (npRoll C k).length = C.length := by
  simp [npRoll]

theorem npRoll_neg_one_interior (C : List ℚ) (i : ℕ) (h1 : 1 ≤ i)
    (h2 : i + 1 < C.length) : (npRoll C (-1)).getD i 0 = C.getD (i + 1) 0 := by
  have hi : i < C.length := by omega
  unfold npRoll
  rw [getD_range_map, if_pos hi]
  have hmod : ((i : ℤ) - -1) % ((C.length : ℕ) : ℤ) = (i : ℤ) - -1 :=
    Int.emod_eq_of_lt (by omega) (by omega)
  rw [hmod]
  have ht : ((i : ℤ) - -1).toNat = i + 1 := by omega
  rw [ht]

theorem npRoll_one_interior (C : List ℚ) (i : ℕ) (h1 : 1 ≤ i)
    (h2 : i + 1 < C.length) : (npRoll C 1).getD i 0 = C.getD (i - 1) 0 := by
  have hi : i < C.length := by omega
  unfold npRoll
  rw [getD_range_map, if_pos hi]
  have hmod : ((i : ℤ) - 1) % ((C.length : ℕ) : ℤ) = (i : ℤ) - 1 :=
    Int.emod_eq_of_lt (by omega) (by omega)
  rw [hmod]
  congr 1
  omega

theorem centered_difference_interior (C : List ℚ) (i : ℕ) (h1 : 1 ≤ i)
    (h2 : i + 1 < C.length) :
    (centered_difference C).getD i 0 =
      C.getD (i + 1) 0 - 2 * C.getD i 0 + C.getD (i - 1) 0 := by
  have hi : i < C.length := by omega
  unfold centered_difference
  rw [getD_range_map, if_pos hi,
    npRoll_neg_one_interior C i h1 h2, npRoll_one_interior C i h1 h2]

theorem solve_interior (C : List ℚ) (dx dt D : ℚ) (i : ℕ) (h1 : 1 ≤ i)
    (h2 : i + 1 < C.length) :
    (solve_1d_diffusion C dx dt D).getD i 0 =
      C.getD i 0 + D * dt / dx ^ 2 *
        (C.getD (i + 1) 0 - 2 * C.getD i 0 + C.getD (i - 1) 0) := by
  have hi : i < C.length := by omega
  unfold solve_1d_diffusion
  rw [getD_range_map, if_pos hi, if_pos ⟨h1, h2⟩, centered_difference_interior C i h1 h2]

theorem solve_non_interior (C : List ℚ) (dx dt D : ℚ) (i : ℕ)
    (h : ¬(1 ≤ i ∧ i + 1 < C.length)) :
    (solve_1d_diffusion C dx dt D).getD i 0 = C.getD i 0 := by
  rcases Nat.lt_or_ge i C.length with hi | hi
  · unfold solve_1d_diffusion
    rw [getD_range_map, if_pos hi, if_neg h]
  · unfold solve_1d_diffusion
    rw [getD_range_map, if_neg (Nat.not_lt_of_le hi), List.getD_eq_default]
    simpa using hi

theorem solve_short_eq (C : List ℚ) (dx dt D : ℚ) (h : C.length ≤ 2) :
    solve_1d_diffusion C dx dt D = C := by
  apply List.ext_getElem (length_solve C dx dt D)
  intro i hi1 hi2
  have hne : ¬(1 ≤ i ∧ i + 1 < C.length) := by omega
  have hgd := solve_non_interior C dx dt D i hne
  rw [List.getD_eq_getElem _ _ hi1, List.getD_eq_getElem _ _ hi2] at hgd
  exact hgd

theorem initial_profile_getD (n : ℕ) (l r : ℚ) (i : ℕ) :
    (set_initial_profile n l r).getD i 0 =
      if i < n then (if i < n / 2 then l else r) else 0 := by
  unfold set_initial_profile
  rw [getD_range_map]

/-! ### Claims -/

/-- C8: for all positive `dx` and `D`, `calculate_time_step` returns exactly
`0.5 * dx^2 / D`; the value is strictly decreasing in `D` and strictly
increasing in `dx^2`. -/
theorem C8_time_step (dx D : ℚ) (hdx : 0 < dx) (hD : 0 < D) :
    calculate_time_step dx D = 1/2 * dx ^ 2 / D ∧
    (∀ D2 : ℚ, D < D2 → calculate_time_step dx D2 < calculate_time_step dx D) ∧
    (∀ dx2 : ℚ, dx ^ 2 < dx2 ^ 2 → calculate_time_step dx D < calculate_time_step dx2 D) := by
  refine ⟨rfl, ?_, ?_⟩
  · intro D2 hlt
    have hnum : (0 : ℚ) < 1/2 * dx ^ 2 := by positivity
    exact div_lt_div_of_pos_left hnum hD hlt
  · intro dx2 hlt
    have h2 : 1/2 * dx ^ 2 < 1/2 * dx2 ^ 2 := by linarith
    unfold calculate_time_step
    rw [div_lt_div_iff₀ hD hD]
    nlinarith

theorem C8_time_step_witness :
    (0 : ℚ) < 1 ∧ (0 : ℚ) < 2 ∧
      calculate_time_step 1 2 = 1/2 * (1 : ℚ) ^ 2 / 2 := by
  refine ⟨by norm_num, by norm_num, (C8_time_step 1 2 (by norm_num) (by norm_num)).1⟩

/-- C7: `set_initial_profile n left right` has length `n`, holds `left` at
indices below `n / 2` and `right` at indices in `[n/2, n)`; for `n = 0` it is
empty and for `n = 1` it is `[right]`. -/
theorem C7_initial_profile (n : ℕ) (left right : ℚ) (_hn : 0 ≤ n) :
    (set_initial_profile n left right).length = n ∧
    (∀ i, i < n / 2 → (set_initial_profile n left right).getD i 0 = left) ∧
    (∀ i, n / 2 ≤ i → i < n → (set_initial_profile n left right).getD i 0 = right) ∧
    set_initial_profile 0 left right = [] ∧
    set_initial_profile 1 left right = [right] := by
  refine ⟨by simp [set_initial_profile], ?_, ?_, by simp [set_initial_profile], ?_⟩
  · intro i hi
    have hin : i < n := lt_of_lt_of_le hi (Nat.div_le_self n 2)
    rw [set_initial_profile, getD_range_map, if_pos hin, if_pos hi]
  · intro i hge hin
    rw [set_initial_profile, getD_range_map, if_pos hin, if_neg (Nat.not_lt_of_le hge)]
  · simp [set_initial_profile, List.range_succ]

theorem C7_initial_profile_witness :
    (0 : ℕ) ≤ 4 ∧ (set_initial_profile 4 500 0).getD 1 0 = 500 := by
  exact ⟨Nat.zero_le 4, (C7_initial_profile 4 500 0 (Nat.zero_le 4)).2.1 1 (by norm_num)⟩

/-- C1: one call of solve_1d_diffusion replaces each interior element C[i],
for 1 ≤ i ≤ n-2, with C[i] + D*dt/dx^2 * (C[i+1] - 2*C[i] + C[i-1]), every
neighbor value taken from the single pre-call snapshot of the field. -/
theorem C1_stepper_ftcs (C : List ℚ) (dx dt D : ℚ) (hn : 3 ≤ C.length)
    (hdx : 0 < dx) (hdt : 0 < dt) (hD : 0 < D) :
    (solve_1d_diffusion C dx dt D).length = C.length ∧
    ∀ i, 1 ≤ i → i ≤ C.length - 2 →
      (solve_1d_diffusion C dx dt D).getD i 0 =
        C.getD i 0 + D * dt / dx ^ 2 *
          (C.getD (i + 1) 0 - 2 * C.getD i 0 + C.getD (i - 1) 0) := by
  refine ⟨length_solve C dx dt D, ?_⟩
  intro i h1 h2
  exact solve_interior C dx dt D i h1 (by omega)

theorem C1_stepper_ftcs_witness :
    (solve_1d_diffusion [1, 2, 3] 1 1 1).getD 1 0 =
      ([1, 2, 3] : List ℚ).getD 1 0 + 1 * 1 / 1 ^ 2 *
        (([1, 2, 3] : List ℚ).getD 2 0 - 2 * ([1, 2, 3] : List ℚ).getD 1 0 +
          ([1, 2, 3] : List ℚ).getD 0 0) :=
  (C1_stepper_ftcs [1, 2, 3] 1 1 1 (by decide) (by norm_num) (by norm_num)
    (by norm_num)).2 1 (by norm_num) (by norm_num)

/-- C4: for every valid input, solve_1d_diffusion never changes the first or
the last element of the concentration field. -/
theorem C4_boundary_frame (C : List ℚ) (dx dt D : ℚ) (hn : 3 ≤ C.length)
    (hdx : 0 < dx) (hdt : 0 < dt) (hD : 0 < D) :
    (solve_1d_diffusion C dx dt D).getD 0 0 = C.getD 0 0 ∧
    (solve_1d_diffusion C dx dt D).getD (C.length - 1) 0 =
      C.getD (C.length - 1) 0 := by
  constructor
  · exact solve_non_interior C dx dt D 0 (by omega)
  · exact solve_non_interior C dx dt D (C.length - 1) (by omega)

theorem C4_boundary_frame_witness :
    (solve_1d_diffusion [1, 2, 3] 1 1 1).getD 0 0 = ([1, 2, 3] : List ℚ).getD 0 0 ∧
    (solve_1d_diffusion [1, 2, 3] 1 1 1).getD (([1, 2, 3] : List ℚ).length - 1) 0 =
      ([1, 2, 3] : List ℚ).getD (([1, 2, 3] : List ℚ).length - 1) 0 :=
  C4_boundary_frame [1, 2, 3] 1 1 1 (by decide) (by norm_num) (by norm_num)
    (by norm_num)

/-- C10: on a field of length 0, 1, or 2, solve_1d_diffusion raises no error
and returns the field completely unchanged (the interior slice is empty). -/
theorem C10_short_field_noop (C : List ℚ) (dx dt D : ℚ) (h : C.length ≤ 2) :
    solve_1d_diffusion C dx dt D = C :=
  solve_short_eq C dx dt D h

theorem C10_short_field_noop_witness :
    ([5, 7] : List ℚ).length ≤ 2 ∧ solve_1d_diffusion [5, 7] 1 3 2 = [5, 7] :=
  ⟨by decide, C10_short_field_noop [5, 7] 1 3 2 (by decide)⟩

/-- C9: the source stepper (wrap-around centered difference, update applied
only to interior indices) produces exactly the same field as the variant that
skips boundary indices and uses only true in-range neighbors. -/
theorem C9_wrap_equiv (C : List ℚ) (dx dt D : ℚ) (hn : 3 ≤ C.length)
    (hdx : 0 < dx) (hdt : 0 < dt) (hD : 0 < D) :
    solve_1d_diffusion C dx dt D = solve_1d_diffusion_skip C dx dt D := by
  unfold solve_1d_diffusion solve_1d_diffusion_skip
  apply List.map_congr_left
  intro i hi
  rw [List.mem_range] at hi
  by_cases hcond : 1 ≤ i ∧ i + 1 < C.length
  · rw [if_pos hcond, if_pos hcond, centered_difference_interior C i hcond.1 hcond.2]
  · rw [if_neg hcond, if_neg hcond]

theorem C9_wrap_equiv_witness :
    solve_1d_diffusion [1, 2, 3] 1 1 1 = solve_1d_diffusion_skip [1, 2, 3] 1 1 1 :=
  C9_wrap_equiv [1, 2, 3] 1 1 1 (by decide) (by norm_num) (by norm_num) (by norm_num)

theorem make_grid_length (origin domain_size grid_spacing : ℚ) :
    (make_grid origin domain_size grid_spacing).1.length =
      (⌈domain_size / grid_spacing⌉).toNat := by
  simp [make_grid, arange, add_sub_cancel_left]

theorem make_grid_getD (origin domain_size grid_spacing : ℚ) (i : ℕ)
    (hi : i < (make_grid origin domain_size grid_spacing).1.length) :
    (make_grid origin domain_size grid_spacing).1.getD i 0 =
      origin + (i : ℚ) * grid_spacing := by
  rw [make_grid_length] at hi
  unfold make_grid arange
  rw [add_sub_cancel_left, getD_range_map, if_pos hi]

theorem lt_of_lt_ceil_div (ds sp : ℚ) (hsp : 0 < sp) (i : ℕ)
    (hi : i < (⌈ds / sp⌉).toNat) : (i : ℚ) * sp < ds := by
  have h0 : 0 ≤ ⌈ds / sp⌉ := by omega
  have h1 : (i : ℤ) + 1 ≤ ⌈ds / sp⌉ := by omega
  have h2 : ((i : ℚ)) + 1 ≤ (⌈ds / sp⌉ : ℚ) := by exact_mod_cast h1
  have h3 : (⌈ds / sp⌉ : ℚ) < ds / sp + 1 := Int.ceil_lt_add_one (ds / sp)
  have h4 : (i : ℚ) < ds / sp := by linarith
  have h5 : (i : ℚ) * sp < ds / sp * sp := mul_lt_mul_of_pos_right h4 hsp
  rwa [div_mul_cancel₀ ds (ne_of_gt hsp)] at h5

/-- C6: for positive domain_size and spacing, make_grid returns the sequence
origin + i * spacing whose length is ceil(domain_size / spacing), whose first
element is origin, whose consecutive differences all equal spacing, whose
elements are all strictly below origin + domain_size, and whose returned
point count equals that length. -/
theorem C6_make_grid (origin domain_size grid_spacing : ℚ)
    (hds : 0 < domain_size) (hsp : 0 < grid_spacing) :
    ((make_grid origin domain_size grid_spacing).2 =
      (make_grid origin domain_size grid_spacing).1.length) ∧
    (((make_grid origin domain_size grid_spacing).1.length : ℤ) =
      ⌈domain_size / grid_spacing⌉) ∧
    ((make_grid origin domain_size grid_spacing).1.getD 0 0 = origin) ∧
    (∀ i, i < (make_grid origin domain_size grid_spacing).1.length →
      (make_grid origin domain_size grid_spacing).1.getD i 0 =
        origin + (i : ℚ) * grid_spacing) ∧
    (∀ i, i + 1 < (make_grid origin domain_size grid_spacing).1.length →
      (make_grid origin domain_size grid_spacing).1.getD (i + 1) 0 -
        (make_grid origin domain_size grid_spacing).1.getD i 0 = grid_spacing) ∧
    (∀ i, i < (make_grid origin domain_size grid_spacing).1.length →
      (make_grid origin domain_size grid_spacing).1.getD i 0 <
        origin + domain_size) := by
  have hq : 0 < domain_size / grid_spacing := div_pos hds hsp
  have hc : 0 < ⌈domain_size / grid_spacing⌉ := Int.ceil_pos.mpr hq
  have hlen := make_grid_length origin domain_size grid_spacing
  have hlen1 : 0 < (make_grid origin domain_size grid_spacing).1.length := by
    rw [hlen]; omega
  refine ⟨rfl, ?_, ?_, ?_, ?_, ?_⟩
  · rw [hlen]
    omega
  · rw [make_grid_getD origin domain_size grid_spacing 0 hlen1]
    push_cast
    ring
  · intro i hi
    exact make_grid_getD origin domain_size grid_spacing i hi
  · intro i hi
    rw [make_grid_getD origin domain_size grid_spacing (i + 1) hi,
      make_grid_getD origin domain_size grid_spacing i (by omega)]
    push_cast
    ring
  · intro i hi
    rw [make_grid_getD origin domain_size grid_spacing i hi]
    have hb : (i : ℚ) * grid_spacing < domain_size := by
      apply lt_of_lt_ceil_div domain_size grid_spacing hsp
      rw [hlen] at hi
      exact hi
    linarith

theorem C6_make_grid_witness :
    (0 : ℚ) < 5 ∧ (0 : ℚ) < 1/2 ∧
      ((make_grid 0 5 (1/2)).1.length : ℤ) = ⌈(5 : ℚ) / (1/2)⌉ :=
  ⟨by norm_num, by norm_num, (C6_make_grid 0 5 (1/2) (by norm_num) (by norm_num)).2.1⟩

theorem step_preserves_len (C : List ℚ) :
    (diffusion_model_step C).length = C.length :=
  length_solve C (1/2) (calculate_time_step (1/2) 100) 100

theorem step_preserves_head (C : List ℚ) :
    (diffusion_model_step C).getD 0 0 = C.getD 0 0 :=
  solve_non_interior C (1/2) (calculate_time_step (1/2) 100) 100 0 (by omega)

theorem step_preserves_tail (C : List ℚ) :
    (diffusion_model_step C).getD (C.length - 1) 0 = C.getD (C.length - 1) 0 :=
  solve_non_interior C (1/2) (calculate_time_step (1/2) 100) 100 (C.length - 1)
    (by omega)

theorem state_succ (ds : ℚ) (k : ℕ) :
    diffusion_model_state ds (k + 1) =
      diffusion_model_step (diffusion_model_state ds k) := by
  rw [diffusion_model_state, diffusion_model_state, Function.iterate_succ_apply']

theorem state_len (ds : ℚ) (k : ℕ) :
    (diffusion_model_state ds k).length = (diffusion_model_init ds).length := by
  induction k with
  | zero => rfl
  | succ n ih => rw [state_succ, step_preserves_len]; exact ih

theorem state_head (ds : ℚ) (k : ℕ) :
    (diffusion_model_state ds k).getD 0 0 = (diffusion_model_init ds).getD 0 0 := by
  induction k with
  | zero => rfl
  | succ n ih => rw [state_succ, step_preserves_head]; exact ih

theorem state_tail (ds : ℚ) (k : ℕ) :
    (diffusion_model_state ds k).getD ((diffusion_model_init ds).length - 1) 0 =
      (diffusion_model_init ds).getD ((diffusion_model_init ds).length - 1) 0 := by
  induction k with
  | zero => rfl
  | succ n ih =>
      have h := step_preserves_tail (diffusion_model_state ds n)
      rw [state_len ds n] at h
      rw [state_succ, h]
      exact ih

theorem init_length (ds : ℚ) :
    (diffusion_model_init ds).length = (⌈ds / (1/2 : ℚ)⌉).toNat := by
  unfold diffusion_model_init set_initial_profile
  rw [List.length_map, List.length_range]
  show (make_grid 0 ds (1/2)).1.length = _
  rw [make_grid_length]

theorem init_getD (ds : ℚ) (i : ℕ) :
    (diffusion_model_init ds).getD i 0 =
      if i < (diffusion_model_init ds).length then
        (if i < (diffusion_model_init ds).length / 2 then 500 else 0)
      else 0 := by
  have hl : (diffusion_model_init ds).length = (make_grid 0 ds (1/2)).2 := by
    unfold diffusion_model_init set_initial_profile
    rw [List.length_map, List.length_range]
  rw [hl]
  unfold diffusion_model_init
  exact initial_profile_getD (make_grid 0 ds (1/2)).2 500 0 i

/-- C2 (amended): for every run of diffusion_model whose domain_size exceeds
the grid spacing dx = 1/2 (so the grid has at least two points), the field
satisfies C[0] = C_left = 500 and C[last] = C_right = 0 after every step:
the initial profile pins both boundary entries and the stepper never touches
them. -/
theorem C2_boundary_invariant (ds : ℚ) (hds : 1/2 < ds) (k : ℕ) :
    (diffusion_model_state ds k).getD 0 0 = 500 ∧
    (diffusion_model_state ds k).getD
      ((diffusion_model_state ds k).length - 1) 0 = 0 := by
  have h1 : (1 : ℤ) < ⌈ds / (1/2 : ℚ)⌉ := by
    rw [Int.lt_ceil]
    have hq : ds / (1/2 : ℚ) = 2 * ds := by ring
    rw [hq]
    push_cast
    linarith
  have hn : 2 ≤ (diffusion_model_init ds).length := by
    rw [init_length]; omega
  have hh : (diffusion_model_init ds).getD 0 0 = 500 := by
    rw [init_getD, if_pos (by omega), if_pos (by omega)]
  have ht : (diffusion_model_init ds).getD
      ((diffusion_model_init ds).length - 1) 0 = 0 := by
    rw [init_getD, if_pos (by omega), if_neg (by omega)]
  refine ⟨(state_head ds k).trans hh, ?_⟩
  rw [state_len ds k]
  exact (state_tail ds k).trans ht

theorem C2_boundary_invariant_witness :
    (1/2 : ℚ) < 5 ∧ (diffusion_model_state 5 1).getD 0 0 = 500 :=
  ⟨by norm_num, (C2_boundary_invariant 5 (by norm_num) 1).1⟩

/-- C2 counterexample: the run diffusion_model(domain_size = 0.5,
n_time_steps = 1) builds a one-point grid, so after step 0 completes the
field is [0] and C[0] = 0, not C_left = 500 — the claim fails for this run. -/
theorem C2_counterexample :
    ¬ ((diffusion_model_state (1/2) 1).getD 0 0 = 500) := by
  have hlen : (diffusion_model_init (1/2)).length = 1 := by
    rw [init_length]
    have hc : ⌈(1/2 : ℚ) / (1/2)⌉ = 1 := by norm_num
    rw [hc]
    rfl
  have h0 : (diffusion_model_init (1/2)).getD 0 0 = 0 := by
    rw [init_getD, hlen]
    norm_num
  rw [state_head, h0]
  norm_num

/-- C3: diffusion_model(plot = False, domain_size = 5, n_time_steps = 5) with
D = 100, dx = 0.5, C_left = 500, C_right = 0 runs to completion, and at every
one of the 5 steps the field has exactly 10 elements with element 0 equal to
500 and element 9 equal to 0. -/
theorem C3_smoke_test (k : ℕ) (hk : k ≤ 5) :
    (diffusion_model_state 5 k).length = 10 ∧
    (diffusion_model_state 5 k).getD 0 0 = 500 ∧
    (diffusion_model_state 5 k).getD 9 0 = 0 := by
  have hlen10 : (diffusion_model_init 5).length = 10 := by
    rw [init_length]
    have hc : ⌈(5 : ℚ) / (1/2)⌉ = 10 := by norm_num
    rw [hc]
    rfl
  have hh : (diffusion_model_init 5).getD 0 0 = 500 := by
    rw [init_getD, hlen10]
    norm_num
  have ht : (diffusion_model_init 5).getD 9 0 = 0 := by
    rw [init_getD, hlen10]
    norm_num
  refine ⟨?_, ?_, ?_⟩
  · rw [state_len, hlen10]
  · rw [state_head, hh]
  · have hst := state_tail 5 k
    rw [hlen10] at hst
    rw [show (10 : ℕ) - 1 = 9 from rfl] at hst
    rw [hst, ht]

theorem C3_smoke_test_witness :
    (5 : ℕ) ≤ 5 ∧ (diffusion_model_state 5 5).getD 0 0 = 500 :=
  ⟨le_refl 5, (C3_smoke_test 5 (le_refl 5)).2.1⟩

theorem make_grid_empty (origin ds sp : ℚ) (h : ds / sp ≤ 0) :
    make_grid origin ds sp = ([], 0) := by
  have hc : ⌈ds / sp⌉ ≤ 0 := Int.ceil_le.mpr (by exact_mod_cast h)
  have ht : (⌈(origin + ds - origin) / sp⌉).toNat = 0 := by
    rw [add_sub_cancel_left]
    omega
  simp only [make_grid, arange]
  rw [ht]
  rfl

/-- C5 counterexample: on invalid parameters no component fails:
calculate_time_step(0.5, -1) returns -1/8, make_grid(0, 5, -1) returns the
empty grid with count 0, and solve_1d_diffusion on the 2-element field [3, 4]
returns it unchanged — no InvalidParameter error exists anywhere in the
code. -/
theorem C5_counterexample :
    calculate_time_step (1/2) (-1) = -(1/8) ∧
    make_grid 0 5 (-1) = ([], 0) ∧
    solve_1d_diffusion [3, 4] (-1) 1 1 = [3, 4] :=
  ⟨by norm_num [calculate_time_step],
   make_grid_empty 0 5 (-1) (by norm_num),
   solve_short_eq [3, 4] (-1) 1 1 (by decide)⟩

/-- C5 (amended): no component validates its parameters or raises an
InvalidParameter error.  On a non-positive diffusivity the Time-Step
Estimator still returns 0.5*dx^2/D; on a non-positive domain size, or a
negative spacing with a positive domain size, the Grid Builder returns the
empty grid with count 0; on a field shorter than 3 elements the stepper
returns the field unchanged. -/
theorem C5_no_validation (dx D origin ds sp ds2 sp2 dt Dv : ℚ) (C : List ℚ)
    (hD : D < 0) (hds : ds ≤ 0) (hsp : 0 < sp) (hds2 : 0 < ds2) (hsp2 : sp2 < 0)
    (hC : C.length < 3) :
    calculate_time_step dx D = 1/2 * dx ^ 2 / D ∧
    make_grid origin ds sp = ([], 0) ∧
    make_grid origin ds2 sp2 = ([], 0) ∧
    solve_1d_diffusion C sp dt Dv = C := by
  refine ⟨rfl, ?_, ?_, solve_short_eq C sp dt Dv (by omega)⟩
  · apply make_grid_empty
    rw [div_nonpos_iff]
    right
    exact ⟨hds, hsp.le⟩
  · exact make_grid_empty origin ds2 sp2 (div_neg_of_pos_of_neg hds2 hsp2).le

theorem C5_no_validation_witness :
    (-1 : ℚ) < 0 ∧ (-5 : ℚ) ≤ 0 ∧ (0 : ℚ) < 1 ∧ (0 : ℚ) < 5 ∧ (-1 : ℚ) < 0 ∧
      ([3, 4] : List ℚ).length < 3 ∧
      calculate_time_step (1/2) (-1) = 1/2 * (1/2 : ℚ) ^ 2 / (-1) :=
  ⟨by norm_num, by norm_num, by norm_num, by norm_num, by norm_num, by decide,
   (C5_no_validation (1/2) (-1) 0 (-5) 1 5 (-1) 1 1 [3, 4] (by norm_num)
     (by norm_num) (by norm_num) (by norm_num) (by norm_num) (by decide)).1⟩
